import Mathlib

/-!
Shallow embedding of the catalog mirror of `datafusion_iceberg_catalog_rest`
(`src/mirror.rs`), together with the qualified-name model it relies on.

The mirror's own code (`Mirror::new`, `table_names`, `schema_names`, `table`,
`table_exists`, `register_table`, `deregister_table`) is translated from
`src/datafusion_iceberg_catalog_rest/src/mirror.rs`.  The qualified-name
operations (`Namespace`/`Identifier` rendering and parsing) live in the
external `iceberg_rs` crate, whose code is not part of this repository, so
they are modelled from the specification (§4.1: canonical string form joins
segments with the separator `.`; parsing splits on that separator and fails
on an empty input or an empty segment).
-/

namespace Mirror

/-- Separator-level split of a character list on `'.'`.
`splitDot l` always returns a nonempty list of segments; splitting the empty
string yields `[[]]`.  Modelled from the spec: "parsing splits on that
separator" (§3, §4.1). -/
def splitDot : List Char → List (List Char)
  | [] => [[]]
  | c :: cs =>
    if c = '.' then [] :: splitDot cs
    else (c :: (splitDot cs).headI) :: (splitDot cs).tail

/-- Separator-level join of character-list segments with `'.'`.
Modelled from the spec: "Canonical string form joins segments with a fixed
separator (`.`)" (§3). -/
def joinDot : List (List Char) → List Char
  | [] => []
  | [x] => x
  | x :: y :: t => x ++ '.' :: joinDot (y :: t)

theorem splitDot_ne_nil (l : List Char) : splitDot l ≠ [] := by
  cases l with
  | nil => simp [splitDot]
  | cons c cs => by_cases hc : c = '.' <;> simp [splitDot, hc]

theorem joinDot_splitDot (l : List Char) : joinDot (splitDot l) = l := by
  induction l with
  | nil => rfl
  | cons c cs ih =>
    rcases hs : splitDot cs with _ | ⟨h, t⟩
    · exact absurd hs (splitDot_ne_nil cs)
    · rw [hs] at ih
      by_cases hc : c = '.'
      · subst hc
        simpa [splitDot, hs, joinDot] using ih
      · simp only [splitDot, if_neg hc, hs, List.headI, List.tail_cons]
        cases t with
        | nil => simpa [joinDot] using ih
        | cons y u => simpa [joinDot] using ih

theorem splitDot_of_not_mem (l : List Char) (h : '.' ∉ l) : splitDot l = [l] := by
  induction l with
  | nil => rfl
  | cons c cs ih =>
    have hc : c ≠ '.' := fun hc => h (hc ▸ List.mem_cons_self c cs)
    have hcs : '.' ∉ cs := fun hm => h (List.mem_cons_of_mem c hm)
    simp [splitDot, ih hcs, hc]

theorem splitDot_append_sep (x rest : List Char) (hx : '.' ∉ x) :
    splitDot (x ++ '.' :: rest) = x :: splitDot rest := by
  induction x with
  | nil => simp [splitDot]
  | cons c cs ih =>
    have hc : c ≠ '.' := fun hc => hx (hc ▸ List.mem_cons_self c cs)
    have hcs : '.' ∉ cs := fun hm => hx (List.mem_cons_of_mem c hm)
    simp [splitDot, ih hcs, hc]

theorem splitDot_joinDot (parts : List (List Char)) (hne : parts ≠ [])
    (hdot : ∀ p ∈ parts, '.' ∉ p) : splitDot (joinDot parts) = parts := by
  induction parts with
  | nil => exact absurd rfl hne
  | cons x t ih =>
    cases t with
    | nil =>
      simp only [joinDot]
      exact splitDot_of_not_mem x (hdot x (List.mem_cons_self x []))
    | cons y u =>
      have hx : '.' ∉ x := hdot x (List.mem_cons_self _ _)
      have ht : ∀ p ∈ y :: u, '.' ∉ p := fun p hp => hdot p (List.mem_cons_of_mem x hp)
      simp only [joinDot]
      rw [splitDot_append_sep x (joinDot (y :: u)) hx, ih (by simp) ht]

theorem mem_splitDot_not_dot (l : List Char) :
    ∀ p ∈ splitDot l, '.' ∉ p := by
  induction l with
  | nil => intro p hp; simp [splitDot] at hp; simp [hp]
  | cons c cs ih =>
    intro p hp
    by_cases hc : c = '.'
    · simp only [splitDot, if_pos hc] at hp
      rcases List.mem_cons.mp hp with hp | hp
      · simp [hp]
      · exact ih p hp
    · rcases hs : splitDot cs with _ | ⟨h, t⟩
      · exact absurd hs (splitDot_ne_nil cs)
      · simp only [splitDot, if_neg hc, hs, List.headI, List.tail_cons] at hp
        rcases List.mem_cons.mp hp with hp | hp
        · subst hp
          intro hm
          rcases List.mem_cons.mp hm with hm | hm
          · exact hc hm.symm
          · exact ih h (hs ▸ List.mem_cons_self h t) hm
        · exact ih p (hs ▸ List.mem_cons_of_mem h hp)

/-- A namespace of the iceberg catalog: an ordered sequence of name segments.
Modelled from the spec (§3, Glossary); the underlying `iceberg_rs` type is not
part of this repository. -/
structure Namespace where
  levels : List String
deriving DecidableEq, Repr

/-- A table identifier: a namespace plus a table name.  Modelled from the
spec (§3): all segments but the last form the namespace, the last names the
relation. -/
structure Identifier where
  nspace : Namespace
  name : String
deriving DecidableEq, Repr

/-- `Namespace::to_string`: joins the levels with `"."`.  Modelled from the
spec ("Canonical string form joins segments with a fixed separator"). -/
def Namespace.render (ns : Namespace) : String :=
  String.mk (joinDot (ns.levels.map String.data))

/-- `Identifier::to_string`: joins the namespace levels and the name
with `"."`.  Modelled from the spec. -/
def Identifier.render (i : Identifier) : String :=
  String.mk (joinDot ((i.nspace.levels ++ [i.name]).map String.data))

/-- `identifier.namespace()`: the parent namespace of an identifier. -/
def Identifier.parentNs (i : Identifier) : Namespace := i.nspace

/-- The key under which an identifier's parent namespace is stored. -/
def Identifier.parentKey (i : Identifier) : String := i.nspace.render

theorem mk_data (l : List Char) : (String.mk l).data = l := rfl

theorem mk_eq_mk {l l' : List Char} (h : String.mk l = String.mk l') : l = l' := by
  injection h

theorem joinDot_concat (parts : List (List Char)) (x : List Char) (h : parts ≠ []) :
    joinDot (parts ++ [x]) = joinDot parts ++ '.' :: x := by
  induction parts with
  | nil => exact absurd rfl h
  | cons p t ih =>
    cases t with
    | nil => simp [joinDot]
    | cons q u =>
      have := ih (by simp)
      simp only [List.cons_append, joinDot] at this ⊢
      simp [this]

/-- The string of an identifier's parent namespace, recovered from the
identifier's own key by dropping the last segment (spec §4.1,
`parent_namespace`). -/
def keyParent (k : String) : String :=
  String.mk (joinDot ((splitDot k.data).dropLast))

/-- No segment of the identifier contains the separator character. -/
def Identifier.dotFree (i : Identifier) : Prop :=
  (∀ l ∈ i.nspace.levels, '.' ∉ l.data) ∧ '.' ∉ i.name.data

instance (i : Identifier) : Decidable i.dotFree := by
  unfold Identifier.dotFree
  infer_instance

theorem Identifier.splitDot_render (i : Identifier) (hdot : i.dotFree) :
    splitDot i.render.data = (i.nspace.levels ++ [i.name]).map String.data := by
  show splitDot (String.mk (joinDot ((i.nspace.levels ++ [i.name]).map String.data))).data = _
  rw [mk_data]
  apply splitDot_joinDot
  · simp
  · intro p hp
    rcases List.mem_map.mp hp with ⟨seg, hseg, rfl⟩
    rcases List.mem_append.mp hseg with hseg | hseg
    · exact hdot.1 seg hseg
    · rcases List.mem_singleton.mp hseg with rfl
      exact hdot.2

/-- For a separator-free identifier, the stored parent key is what dropping
the last segment of the identifier's own key yields. -/
theorem Identifier.keyParent_render (i : Identifier) (hdot : i.dotFree) :
    keyParent i.render = i.parentKey := by
  unfold keyParent Identifier.parentKey Namespace.render
  rw [i.splitDot_render hdot]
  simp [List.map_append]

/-- An identifier with a nonempty table name never collides with its own
parent namespace key. -/
theorem Identifier.render_ne_parentKey (i : Identifier) (hn : i.name ≠ "") :
    i.render ≠ i.parentKey := by
  intro h
  unfold Identifier.render Identifier.parentKey Namespace.render at h
  have h' := mk_eq_mk h
  rcases hl : i.nspace.levels with _ | ⟨a, t⟩
  · rw [hl] at h'
    simp [joinDot] at h'
    exact hn (by cases hname : i.name; simp_all [mk_data])
  · rw [hl] at h'
    rw [List.map_append] at h'
    simp only [List.map_cons, List.map_nil] at h'
    rw [joinDot_concat _ _ (by simp)] at h'
    have hlen := congrArg List.length h'
    simp [List.length_append] at hlen

/-- Errors surfaced by the mirror; `mirror.rs` reports every failure as
`DataFusionError::Internal` with a message string. -/
inductive DataFusionError where
  | internal (msg : String)
deriving DecidableEq, Repr

/-- An iceberg table as loaded from the remote catalog; the mirror only ever
reads its metadata location.  Modelled from the spec (§6: `load_table` yields
an opaque `TableHandle`; §4.2: registration sends "the handle's persisted
location"). -/
structure IcebergTable where
  metadata_location : String
deriving DecidableEq, Repr

/-- `datafusion_iceberg::DataFusionTable`, a newtype wrapping an iceberg
table (`self.0` in `mirror.rs`). -/
structure DataFusionTable where
  table : IcebergTable
deriving DecidableEq, Repr

/-- An `Arc<dyn TableProvider>` handle.  The mirror treats it as opaque
except for the attempted downcast to `DataFusionTable`
(`table.as_any().downcast_ref::<DataFusionTable>()`); `tag` stands for the
rest of the provider's identity. -/
structure TableProvider where
  tag : Nat
  downcast : Option DataFusionTable
deriving DecidableEq, Repr

/-- `type NamespaceNode = HashSet<String>` in `mirror.rs`.  Modelled as a
duplicate-free list: `HashSet::insert` adds only absent elements and
`HashSet::remove` deletes the element. -/
def NamespaceNode := List String

/-- `HashSet::insert`: a no-op when the element is already present. -/
def hsInsert (x : String) (s : List String) : List String :=
  if x ∈ s then s else s ++ [x]

/-- `HashSet::remove`. -/
def hsRemove (x : String) (s : List String) : List String := s.erase x

/-- The tagged entry stored per key (`enum Node` in `mirror.rs`):
`Node::Namespace(NamespaceNode)` or `Node::Relation(Arc<dyn TableProvider>)`. -/
inductive Node where
  | nspace (children : List String)
  | relation (t : TableProvider)
deriving DecidableEq, Repr

/-- The `DashMap<String, Node>` of `Mirror`, modelled extensionally as a
partial map from keys to nodes. -/
def Store := String → Option Node

/-- `DashMap::insert`. -/
def storeInsert (s : Store) (k : String) (n : Node) : Store :=
  fun q => if q = k then some n else s q

/-- `DashMap::remove`. -/
def storeRemove (s : Store) (k : String) : Store :=
  fun q => if q = k then none else s q

/-- The empty store (`DashMap::new`). -/
def storeEmpty : Store := fun _ => none

/-- `Identifier::parse` of `iceberg_rs`.  Modelled from the spec (§4.1):
splits the canonical string form on the separator and fails with a malformed
name error when the input is empty, contains an empty segment, or has no
namespace part (an identifier needs at least a namespace segment and a table
name). -/
def Identifier.parse (s : String) : Except DataFusionError Identifier :=
  let parts := splitDot s.data
  if parts.length < 2 ∨ parts.any List.isEmpty then
    .error (.internal "Malformed identifier.")
  else
    .ok ⟨⟨(parts.dropLast).map String.mk⟩, String.mk (parts.getLast (splitDot_ne_nil s.data))⟩

/-- Parsing is a left inverse of rendering: any identifier produced by
`Identifier.parse` renders back to the parsed string (spec §4.1: "Parsing
and rendering must be exact inverses"). -/
theorem Identifier.parse_render {x : String} {i : Identifier}
    (h : Identifier.parse x = .ok i) : i.render = x := by
  simp only [Identifier.parse] at h
  split at h
  · exact absurd h (by simp)
  · have hi : i = ⟨⟨((splitDot x.data).dropLast).map String.mk⟩,
        String.mk ((splitDot x.data).getLast (splitDot_ne_nil x.data))⟩ := by
      injection h with h'
      exact h'.symm
    subst hi
    unfold Identifier.render
    have hcomp : String.data ∘ String.mk = id := funext fun l => rfl
    have hmapdata :
        ((((splitDot x.data).dropLast).map String.mk).map String.data)
          = (splitDot x.data).dropLast := by
      rw [List.map_map, hcomp, List.map_id]
    show String.mk (joinDot _) = x
    rw [List.map_append, hmapdata]
    simp only [List.map_cons, List.map_nil, mk_data]
    rw [List.dropLast_append_getLast (splitDot_ne_nil x.data)]
    rw [joinDot_splitDot]

/-- `names.iter().map(Identifier::parse).collect::<Result<Vec<_>, _>>()`:
parse every child string, failing on the first parse error. -/
def parseAll : List String → Except DataFusionError (List Identifier)
  | [] => .ok []
  | x :: xs =>
    match Identifier.parse x with
    | .error e => .error e
    | .ok i =>
      match parseAll xs with
      | .error e => .error e
      | .ok l => .ok (i :: l)

/-- `Mirror::table_names` (`mirror.rs:55-72`): look up the namespace key;
absent keys and relation entries fail; otherwise every child string is parsed
as an identifier. -/
def table_names (s : Store) (ns : Namespace) : Except DataFusionError (List Identifier) :=
  match s ns.render with
  | none => .error (.internal "Namespace not found.")
  | some (.relation _) => .error (.internal "Cannot list tables of a table.")
  | some (.nspace names) => parseAll names

/-- `Mirror::table` (`mirror.rs:92-99`). -/
def table (s : Store) (identifier : Identifier) : Option TableProvider :=
  match s identifier.render with
  | some (.relation r) => some r
  | _ => none

/-- `Mirror::table_exists` (`mirror.rs:100-102`):
`self.storage.contains_key(&identifier.to_string())`. -/
def table_exists (s : Store) (identifier : Identifier) : Bool :=
  (s identifier.render).isSome

/-- A remote-catalog call handed to the background spawner
(`spawner.spawn_local(...)`). -/
inductive RemoteCall where
  | registerTable (i : Identifier) (metadata_location : String)
  | dropTable (i : Identifier)
deriving DecidableEq, Repr

/-- Outcome of a mutation: the store after the call, the remote calls
dispatched to the background pool, and the value returned to the caller. -/
structure MutationOutcome where
  store : Store
  dispatched : List RemoteCall
  result : Except DataFusionError (Option TableProvider)

/-- `Mirror::register_table` (`mirror.rs:103-145`), step by step as the
source executes: (1) insert the relation entry; (2) look up the parent
namespace key, failing with "Namespace doesn't exist" if absent; (3) if the
parent entry is a namespace, insert the key into its child set (no-op when
the parent entry is a relation); (4) downcast the handle, failing if it is
not a `DataFusionTable`; (5) dispatch the remote registration and return the
handle.  The spawner of a fresh `LocalPool` cannot fail, so the dispatch is
modelled as always succeeding. -/
def register_table (s : Store) (identifier : Identifier) (tbl : TableProvider) :
    MutationOutcome :=
  let s1 := storeInsert s identifier.render (.relation tbl)
  match s1 identifier.parentKey with
  | none => ⟨s1, [], .error (.internal "Namespace doesn't exist")⟩
  | some (.nspace children) =>
    let s2 := storeInsert s1 identifier.parentKey
      (.nspace (hsInsert identifier.render children))
    match tbl.downcast with
    | none => ⟨s2, [], .error (.internal "Table is not an iceberg datafusion table.")⟩
    | some dft =>
      ⟨s2, [.registerTable identifier dft.table.metadata_location], .ok (some tbl)⟩
  | some (.relation _) =>
    match tbl.downcast with
    | none => ⟨s1, [], .error (.internal "Table is not an iceberg datafusion table.")⟩
    | some dft =>
      ⟨s1, [.registerTable identifier dft.table.metadata_location], .ok (some tbl)⟩

/-- `Mirror::deregister_table` (`mirror.rs:146-184`), step by step as the
source executes: (1) remove the entry at the identifier's key, failing if it
was absent or (after the removal) if it was a namespace entry; (2) look up
the parent namespace key, failing with "Namespace doesn't exist" if absent;
(3) if the parent entry is a namespace, remove the key from its child set;
(4) dispatch the remote drop and return the removed handle. -/
def deregister_table (s : Store) (identifier : Identifier) : MutationOutcome :=
  match s identifier.render with
  | none => ⟨s, [], .error (.internal "Can't deregister table, tables doesn't exist.")⟩
  | some (.nspace _) =>
    ⟨storeRemove s identifier.render, [],
      .error (.internal "Can't deregister table, identifier refers to a namespace.")⟩
  | some (.relation tbl) =>
    let s1 := storeRemove s identifier.render
    match s1 identifier.parentKey with
    | none => ⟨s1, [], .error (.internal "Namespace doesn't exist")⟩
    | some (.nspace children) =>
      ⟨storeInsert s1 identifier.parentKey
        (.nspace (hsRemove identifier.render children)),
        [.dropTable identifier], .ok (some tbl)⟩
    | some (.relation _) => ⟨s1, [.dropTable identifier], .ok (some tbl)⟩

/-- The remote catalog as the snapshot loader sees it: a deterministic
oracle giving the outcome of each asynchronous call.  Modelled from the spec
(§6); the `iceberg_rs::Catalog` trait is not part of this repository. -/
structure Catalog where
  list_namespaces : Except String (List Namespace)
  list_tables : Namespace → Except String (List Identifier)
  load_table : Identifier → Except String IcebergTable

/-- `Arc::new(DataFusionTable::from(relation)) as Arc<dyn TableProvider>`. -/
def providerOfTable (t : IcebergTable) : TableProvider := ⟨0, some ⟨t⟩⟩

/-- Inner loop of `Mirror::new`: load every listed table, inserting a
relation entry per table and accumulating the namespace's child set. -/
def load_tables (cat : Catalog) :
    List Identifier → Store → List String → Except String (Store × List String)
  | [], s, acc => .ok (s, acc)
  | id :: rest, s, acc =>
    match cat.load_table id with
    | .error e => .error e
    | .ok t =>
      load_tables cat rest (storeInsert s id.render (.relation (providerOfTable t)))
        (hsInsert id.render acc)

/-- Outer loop of `Mirror::new`: for each namespace, list and load its
tables, then insert the namespace entry. -/
def load_namespaces (cat : Catalog) : List Namespace → Store → Except String Store
  | [], s => .ok s
  | ns :: rest, s =>
    match cat.list_tables ns with
    | .error e => .error e
    | .ok tables =>
      match load_tables cat tables s [] with
      | .error e => .error e
      | .ok (s', children) =>
        load_namespaces cat rest (storeInsert s' ns.render (.nspace children))

/-- `Mirror::new` (`mirror.rs:23-53`): walk the remote catalog, mapping
every remote failure to a `DataFusionError` that aborts construction. -/
def mirror_new (cat : Catalog) : Except DataFusionError Store :=
  match cat.list_namespaces with
  | .error e => .error (.internal e)
  | .ok nss =>
    match load_namespaces cat nss storeEmpty with
    | .error e => .error (.internal e)
    | .ok s => .ok s

/-! ### Concrete stores and handles used as witnesses and counterexamples -/

/-- A handle that is a datafusion iceberg table. -/
def exHandle : TableProvider := ⟨1, some ⟨⟨"s3://bucket/loc1"⟩⟩⟩

/-- A second, distinct iceberg handle. -/
def exHandle2 : TableProvider := ⟨2, some ⟨⟨"s3://bucket/loc2"⟩⟩⟩

/-- A handle that cannot be downcast to `DataFusionTable`. -/
def exHandleRaw : TableProvider := ⟨3, none⟩

def exSales : Namespace := ⟨["sales"]⟩

def exOrders : Identifier := ⟨⟨["sales"]⟩, "orders"⟩

def exMissingOrders : Identifier := ⟨⟨["missing"]⟩, "orders"⟩

/-- A store holding just the namespace entry `"sales"` with no children. -/
def exStore : Store := storeInsert storeEmpty "sales" (.nspace [])

/-- A store whose key `"a.b"` holds a namespace entry; the same string is
also the rendering of the identifier `a.b`. -/
def exStoreAB : Store := storeInsert storeEmpty "a.b" (.nspace [])

def identAB : Identifier := ⟨⟨["a"]⟩, "b"⟩

def nsA : Namespace := ⟨["a"]⟩

/-- A store where namespace `"a"` lists the child `"a.b"`, and `"a.b"`
itself holds a namespace entry (not a relation). -/
def exStoreNested : Store :=
  storeInsert (storeInsert storeEmpty "a" (.nspace ["a.b"])) "a.b" (.nspace [])

/-- A store where namespace `"sales"` lists `"sales.orders"`, which holds a
relation. -/
def exStoreWithChild : Store :=
  storeInsert (storeInsert storeEmpty "sales" (.nspace ["sales.orders"]))
    "sales.orders" (.relation exHandle)

/-! ### C2 -/

/-- C2 fails on the code: `table_exists` is `contains_key`, so it also
answers `true` when the key holds a `NamespaceEntry`.  Here the store maps
the identifier `a.b`'s string form to a namespace entry, yet `table_exists`
returns `true`. -/
theorem claim_C2_counterexample :
    table_exists exStoreAB identAB = true ∧
    exStoreAB identAB.render = some (.nspace []) := by
  constructor <;> rfl

/-- C2 (amended): `table_exists(name)` returns true iff the store contains
an entry of either kind at `name`'s string form. -/
theorem claim_C2 (s : Store) (i : Identifier) :
    table_exists s i = true ↔ ∃ n, s i.render = some n := by
  unfold table_exists
  cases h : s i.render <;> simp [h]

/-! ### C3 -/

/-- C3 fails on the code: `register_table` inserts the relation entry before
looking up the parent namespace, so after the `NamespaceNotFound` failure the
store is not what it was — the relation entry at `"missing.orders"` has been
inserted. -/
theorem claim_C3_counterexample :
    (register_table exStore exMissingOrders exHandle).result
      = .error (.internal "Namespace doesn't exist") ∧
    (register_table exStore exMissingOrders exHandle).store "missing.orders"
      = some (.relation exHandle) ∧
    exStore "missing.orders" = none := by
  refine ⟨rfl, rfl, rfl⟩

/-- C3 (amended): if the store has no entry at the parent namespace key (and
the identifier has a nonempty table name, so its own key differs from the
parent key), `register_table` fails with the `NamespaceNotFound` error and
dispatches nothing, but the relation entry at `name` has been inserted; every
other key is unchanged. -/
theorem claim_C3 (s : Store) (i : Identifier) (t : TableProvider)
    (hn : i.name ≠ "") (hns : s i.parentKey = none) :
    (register_table s i t).result = .error (.internal "Namespace doesn't exist") ∧
    (register_table s i t).store i.render = some (.relation t) ∧
    (∀ k, k ≠ i.render → (register_table s i t).store k = s k) ∧
    (register_table s i t).dispatched = [] := by
  have hne : ¬(i.parentKey = i.render) := fun h => i.render_ne_parentKey hn h.symm
  have h1 : storeInsert s i.render (.relation t) i.parentKey = none := by
    unfold storeInsert
    rw [if_neg hne]
    exact hns
  simp only [register_table, h1]
  refine ⟨by trivial, ?_, ?_, by trivial⟩
  · unfold storeInsert
    rw [if_pos rfl]
  · intro k hk
    unfold storeInsert
    rw [if_neg hk]

/-- Witness for C3 at the concrete missing-namespace scenario of the spec. -/
theorem claim_C3_witness :
    exMissingOrders.name ≠ "" ∧ exStore exMissingOrders.parentKey = none ∧
    ((register_table exStore exMissingOrders exHandle).result
        = .error (.internal "Namespace doesn't exist") ∧
      (register_table exStore exMissingOrders exHandle).store exMissingOrders.render
        = some (.relation exHandle) ∧
      (∀ k, k ≠ exMissingOrders.render →
        (register_table exStore exMissingOrders exHandle).store k = exStore k) ∧
      (register_table exStore exMissingOrders exHandle).dispatched = []) :=
  ⟨by decide, by rfl, claim_C3 exStore exMissingOrders exHandle (by decide) (by rfl)⟩

/-! ### C5 -/

/-- C5 fails on the code: `table_names` does not filter the children to
those that are relations in the store.  Namespace `"a"` has child `"a.b"`,
whose entry is itself a namespace, yet `table_names` returns it. -/
theorem claim_C5_counterexample :
    table_names exStoreNested nsA = .ok [identAB] ∧
    exStoreNested identAB.render = some (.nspace []) := by
  refine ⟨rfl, rfl⟩

/-- C5 (amended): `table_names` fails with the `NamespaceNotFound` error
when the key is absent and with the `NotANamespace` error when it holds a
relation entry; otherwise it parses every child string as an identifier with
no filtering by entry kind (failing if any child fails to parse). -/
theorem claim_C5 (s : Store) (ns : Namespace) :
    (s ns.render = none →
      table_names s ns = .error (.internal "Namespace not found.")) ∧
    (∀ t, s ns.render = some (.relation t) →
      table_names s ns = .error (.internal "Cannot list tables of a table.")) ∧
    (∀ c, s ns.render = some (.nspace c) → table_names s ns = parseAll c) := by
  refine ⟨?_, ?_, ?_⟩
  · intro h
    simp only [table_names, h]
  · intro t h
    simp only [table_names, h]
  · intro c h
    simp only [table_names, h]

/-- Witness for C5: the namespace case on a concrete store. -/
theorem claim_C5_witness :
    exStoreNested nsA.render = some (.nspace ["a.b"]) ∧
    table_names exStoreNested nsA = parseAll ["a.b"] :=
  ⟨by rfl, (claim_C5 exStoreNested nsA).2.2 ["a.b"] (by rfl)⟩

/-! ### C9 -/

/-- C9: when `deregister_table` is called on a name whose entry is a
`NamespaceEntry`, it returns the kind-mismatch error, but the namespace entry
has already been removed from the store by then (everything else is
untouched and nothing is dispatched), orphaning the children listed under
the removed key. -/
theorem claim_C9 (s : Store) (i : Identifier) (c : List String)
    (h : s i.render = some (.nspace c)) :
    (deregister_table s i).result
      = .error (.internal "Can't deregister table, identifier refers to a namespace.") ∧
    (deregister_table s i).store i.render = none ∧
    (∀ k, k ≠ i.render → (deregister_table s i).store k = s k) ∧
    (∀ k ∈ c, keyParent k = i.render →
      (deregister_table s i).store (keyParent k) = none) ∧
    (deregister_table s i).dispatched = [] := by
  simp only [deregister_table, h]
  refine ⟨by trivial, ?_, ?_, ?_, by trivial⟩
  · unfold storeRemove
    rw [if_pos rfl]
  · intro k hk
    unfold storeRemove
    rw [if_neg hk]
  · intro k _ hkp
    rw [hkp]
    unfold storeRemove
    rw [if_pos rfl]

/-- Witness for C9: deregistering the identifier `a.b` while `"a.b"` holds a
namespace entry. -/
theorem claim_C9_witness :
    exStoreAB identAB.render = some (.nspace []) ∧
    ((deregister_table exStoreAB identAB).result
      = .error (.internal "Can't deregister table, identifier refers to a namespace.") ∧
    (deregister_table exStoreAB identAB).store identAB.render = none ∧
    (∀ k, k ≠ identAB.render → (deregister_table exStoreAB identAB).store k = exStoreAB k) ∧
    (∀ k ∈ ([] : List String), keyParent k = identAB.render →
      (deregister_table exStoreAB identAB).store (keyParent k) = none) ∧
    (deregister_table exStoreAB identAB).dispatched = []) :=
  ⟨by rfl, claim_C9 exStoreAB identAB [] (by rfl)⟩

/-! ### C10 -/

/-- C10: when the handle cannot be downcast to a `DataFusionTable`,
`register_table` returns an error, yet the relation entry at `name` and the
insertion of `name` into the parent namespace's child set have already taken
place and remain in the store, and no remote call is dispatched. -/
theorem claim_C10 (s : Store) (i : Identifier) (t : TableProvider) (c : List String)
    (hdc : t.downcast = none)
    (hns : s i.parentKey = some (.nspace c))
    (hn : i.name ≠ "") :
    (register_table s i t).result
      = .error (.internal "Table is not an iceberg datafusion table.") ∧
    (register_table s i t).store i.render = some (.relation t) ∧
    (register_table s i t).store i.parentKey
      = some (.nspace (hsInsert i.render c)) ∧
    (register_table s i t).dispatched = [] := by
  have hne : ¬(i.parentKey = i.render) := fun h => i.render_ne_parentKey hn h.symm
  have h1 : storeInsert s i.render (.relation t) i.parentKey = some (.nspace c) := by
    unfold storeInsert
    rw [if_neg hne]
    exact hns
  simp only [register_table, h1, hdc]
  refine ⟨by trivial, ?_, ?_, by trivial⟩
  · unfold storeInsert
    rw [if_neg (i.render_ne_parentKey hn), if_pos rfl]
  · unfold storeInsert
    rw [if_pos rfl]

/-- Witness for C10: registering a non-iceberg handle under the seeded
`"sales"` namespace. -/
theorem claim_C10_witness :
    exHandleRaw.downcast = none ∧
    exStore exOrders.parentKey = some (.nspace []) ∧
    exOrders.name ≠ "" ∧
    ((register_table exStore exOrders exHandleRaw).result
      = .error (.internal "Table is not an iceberg datafusion table.") ∧
    (register_table exStore exOrders exHandleRaw).store exOrders.render
      = some (.relation exHandleRaw) ∧
    (register_table exStore exOrders exHandleRaw).store exOrders.parentKey
      = some (.nspace (hsInsert exOrders.render [])) ∧
    (register_table exStore exOrders exHandleRaw).dispatched = []) :=
  ⟨by rfl, by rfl, by decide,
    claim_C10 exStore exOrders exHandleRaw [] (by rfl) (by rfl) (by decide)⟩

/-! ### Helper lemmas about the mutation paths -/

theorem table_names_nspace (s : Store) (ns : Namespace) (c : List String)
    (h : s ns.render = some (.nspace c)) : table_names s ns = parseAll c := by
  simp only [table_names, h]

theorem hsInsert_self_mem (x : String) (l : List String) : x ∈ hsInsert x l := by
  unfold hsInsert
  by_cases h : x ∈ l <;> simp [h]

theorem hsInsert_idem (x : String) (l : List String) :
    hsInsert x (hsInsert x l) = hsInsert x l := by
  unfold hsInsert
  by_cases h : x ∈ l
  · simp [h]
  · simp [h]

theorem mem_hsInsert_of_mem {y x : String} {l : List String} (h : y ∈ l) :
    y ∈ hsInsert x l := by
  unfold hsInsert
  by_cases hx : x ∈ l <;> simp [hx, h]

theorem not_mem_hsRemove_hsInsert (x : String) (l : List String) (h : l.Nodup) :
    x ∉ hsRemove x (hsInsert x l) := by
  unfold hsInsert hsRemove
  by_cases hx : x ∈ l
  · rw [if_pos hx]
    intro hmem
    exact ((List.Nodup.mem_erase_iff h).mp hmem).1 rfl
  · rw [if_neg hx, List.erase_append_right _ hx]
    simp [hx]

/-- On the successful-parent path (the parent key holds a namespace entry),
`register_table` leaves the store with the relation inserted at the
identifier's key and the identifier's key added to the parent's child set,
regardless of the downcast outcome. -/
theorem register_table_store_nspace (s : Store) (i : Identifier) (t : TableProvider)
    (c : List String) (hn : i.name ≠ "")
    (hns : s i.parentKey = some (.nspace c)) :
    (register_table s i t).store
      = storeInsert (storeInsert s i.render (.relation t)) i.parentKey
          (.nspace (hsInsert i.render c)) := by
  have h1 : storeInsert s i.render (.relation t) i.parentKey = some (.nspace c) := by
    unfold storeInsert
    rw [if_neg (fun h => i.render_ne_parentKey hn h.symm)]
    exact hns
  rcases hd : t.downcast with _ | dft <;> simp only [register_table, h1, hd]

/-- On the successful-parent path with a downcastable handle,
`register_table` returns the handle and dispatches the remote registration. -/
theorem register_table_ok (s : Store) (i : Identifier) (t : TableProvider)
    (c : List String) (d : DataFusionTable) (hn : i.name ≠ "")
    (hns : s i.parentKey = some (.nspace c)) (hd : t.downcast = some d) :
    (register_table s i t).result = .ok (some t) ∧
    (register_table s i t).dispatched
      = [.registerTable i d.table.metadata_location] := by
  have h1 : storeInsert s i.render (.relation t) i.parentKey = some (.nspace c) := by
    unfold storeInsert
    rw [if_neg (fun h => i.render_ne_parentKey hn h.symm)]
    exact hns
  simp only [register_table, h1, hd]
  exact ⟨by trivial, by trivial⟩

theorem parseAll_mem {c : List String} {l : List Identifier}
    (h : parseAll c = .ok l) : ∀ i ∈ l, ∃ x ∈ c, Identifier.parse x = .ok i := by
  induction c generalizing l with
  | nil =>
    unfold parseAll at h
    injection h with h
    subst h
    intro i hi
    exact absurd hi (List.not_mem_nil i)
  | cons x xs ih =>
    unfold parseAll at h
    rcases hx : Identifier.parse x with e | j <;> rw [hx] at h
    · exact absurd h (by simp)
    · rcases hxs : parseAll xs with e | l' <;> rw [hxs] at h
      · exact absurd h (by simp)
      · injection h with h
        subst h
        intro i hi
        rcases List.mem_cons.mp hi with hi | hi
        · exact ⟨x, List.mem_cons_self x xs, hi ▸ hx⟩
        · rcases ih hxs i hi with ⟨y, hy, hparse⟩
          exact ⟨y, List.mem_cons_of_mem x hy, hparse⟩

/-! ### C6 -/

/-- C6: registering the same name twice (under an existing parent namespace
entry) with two different handles leaves exactly one relation entry at that
name, holding the second handle, and `table_names` of the parent namespace
(hence also its length) is unchanged by the re-registration. -/
theorem claim_C6 (s : Store) (i : Identifier) (h1 h2 : TableProvider)
    (c : List String) (_hh : h1 ≠ h2) (hn : i.name ≠ "")
    (hns : s i.parentKey = some (.nspace c)) :
    (register_table (register_table s i h1).store i h2).store i.render
      = some (.relation h2) ∧
    table_names (register_table (register_table s i h1).store i h2).store i.nspace
      = table_names (register_table s i h1).store i.nspace ∧
    (∀ l1 l2, table_names (register_table s i h1).store i.nspace = .ok l1 →
      table_names (register_table (register_table s i h1).store i h2).store i.nspace
        = .ok l2 → l2.length = l1.length) := by
  have hkpk : ¬(i.render = i.parentKey) := i.render_ne_parentKey hn
  have e1 := register_table_store_nspace s i h1 c hn hns
  have hpk1 : (register_table s i h1).store i.parentKey
      = some (.nspace (hsInsert i.render c)) := by
    rw [e1]
    unfold storeInsert
    rw [if_pos rfl]
  have e2 := register_table_store_nspace (register_table s i h1).store i h2
    (hsInsert i.render c) hn hpk1
  have hpk2 : (register_table (register_table s i h1).store i h2).store i.parentKey
      = some (.nspace (hsInsert i.render (hsInsert i.render c))) := by
    rw [e2]
    unfold storeInsert
    rw [if_pos rfl]
  have t1 : table_names (register_table s i h1).store i.nspace
      = parseAll (hsInsert i.render c) := table_names_nspace _ _ _ hpk1
  have t2 : table_names (register_table (register_table s i h1).store i h2).store i.nspace
      = parseAll (hsInsert i.render (hsInsert i.render c)) :=
    table_names_nspace _ _ _ hpk2
  refine ⟨?_, ?_, ?_⟩
  · rw [e2]
    unfold storeInsert
    rw [if_neg hkpk, if_pos rfl]
  · rw [t1, t2, hsInsert_idem]
  · intro l1 l2 hl1 hl2
    rw [t2, hsInsert_idem, ← t1, hl1] at hl2
    injection hl2 with hl2
    rw [hl2]

/-- Witness for C6: registering `sales.orders` twice with two distinct
handles over the seeded `"sales"` namespace. -/
theorem claim_C6_witness :
    exHandle ≠ exHandle2 ∧ exOrders.name ≠ "" ∧
    exStore exOrders.parentKey = some (.nspace []) ∧
    ((register_table (register_table exStore exOrders exHandle).store
        exOrders exHandle2).store exOrders.render = some (.relation exHandle2) ∧
    table_names (register_table (register_table exStore exOrders exHandle).store
        exOrders exHandle2).store exOrders.nspace
      = table_names (register_table exStore exOrders exHandle).store exOrders.nspace ∧
    (∀ l1 l2,
      table_names (register_table exStore exOrders exHandle).store exOrders.nspace
        = .ok l1 →
      table_names (register_table (register_table exStore exOrders exHandle).store
          exOrders exHandle2).store exOrders.nspace = .ok l2 →
      l2.length = l1.length)) :=
  ⟨by decide, by decide, by rfl,
    claim_C6 exStore exOrders exHandle exHandle2 [] (by decide) (by decide) (by rfl)⟩

/-! ### C7 -/

/-- C7: after a successful `register_table(N, H)` over an existing parent
namespace entry, `deregister_table(N)` returns `H`; afterwards `table(N)` is
empty, `table_exists(N)` is false, and `N` does not appear in `table_names`
of its parent namespace. -/
theorem claim_C7 (s : Store) (i : Identifier) (t : TableProvider)
    (d : DataFusionTable) (c : List String)
    (hn : i.name ≠ "") (hd : t.downcast = some d)
    (hns : s i.parentKey = some (.nspace c)) (hnodup : c.Nodup) :
    (register_table s i t).result = .ok (some t) ∧
    (deregister_table (register_table s i t).store i).result = .ok (some t) ∧
    table (deregister_table (register_table s i t).store i).store i = none ∧
    table_exists (deregister_table (register_table s i t).store i).store i = false ∧
    (∀ l, table_names (deregister_table (register_table s i t).store i).store i.nspace
      = .ok l → i ∉ l) := by
  have hkpk : ¬(i.render = i.parentKey) := i.render_ne_parentKey hn
  have e1 := register_table_store_nspace s i t c hn hns
  have hkey1 : (register_table s i t).store i.render = some (.relation t) := by
    rw [e1]
    unfold storeInsert
    rw [if_neg hkpk, if_pos rfl]
  have hpk1 : (register_table s i t).store i.parentKey
      = some (.nspace (hsInsert i.render c)) := by
    rw [e1]
    unfold storeInsert
    rw [if_pos rfl]
  have hpk1' : storeRemove (register_table s i t).store i.render i.parentKey
      = some (.nspace (hsInsert i.render c)) := by
    unfold storeRemove
    rw [if_neg (fun h => hkpk h.symm)]
    exact hpk1
  have e2 : deregister_table (register_table s i t).store i
      = ⟨storeInsert (storeRemove (register_table s i t).store i.render) i.parentKey
          (.nspace (hsRemove i.render (hsInsert i.render c))),
          [.dropTable i], .ok (some t)⟩ := by
    simp only [deregister_table, hkey1, hpk1']
  have hkey2 : (deregister_table (register_table s i t).store i).store i.render
      = none := by
    simp only [e2]
    unfold storeInsert storeRemove
    rw [if_neg hkpk, if_pos rfl]
  have hpk2 : (deregister_table (register_table s i t).store i).store i.parentKey
      = some (.nspace (hsRemove i.render (hsInsert i.render c))) := by
    simp only [e2]
    unfold storeInsert
    rw [if_pos rfl]
  refine ⟨(register_table_ok s i t c d hn hns hd).1, ?_, ?_, ?_, ?_⟩
  · rw [e2]
  · unfold table
    rw [hkey2]
  · unfold table_exists
    rw [hkey2]
    rfl
  · intro l htn hi
    have htn' : parseAll (hsRemove i.render (hsInsert i.render c)) = .ok l := by
      rw [← table_names_nspace _ _ _ hpk2]
      exact htn
    rcases parseAll_mem htn' i hi with ⟨x, hx, hparse⟩
    have hxr : i.render = x := Identifier.parse_render hparse
    rw [← hxr] at hx
    exact not_mem_hsRemove_hsInsert i.render c hnodup hx

/-- Witness for C7: register then deregister `sales.orders` over the seeded
`"sales"` namespace. -/
theorem claim_C7_witness :
    exOrders.name ≠ "" ∧ exHandle.downcast = some ⟨⟨"s3://bucket/loc1"⟩⟩ ∧
    exStore exOrders.parentKey = some (.nspace []) ∧ ([] : List String).Nodup ∧
    ((register_table exStore exOrders exHandle).result = .ok (some exHandle) ∧
    (deregister_table (register_table exStore exOrders exHandle).store exOrders).result
      = .ok (some exHandle) ∧
    table (deregister_table (register_table exStore exOrders exHandle).store
        exOrders).store exOrders = none ∧
    table_exists (deregister_table (register_table exStore exOrders exHandle).store
        exOrders).store exOrders = false ∧
    (∀ l, table_names (deregister_table
        (register_table exStore exOrders exHandle).store exOrders).store exOrders.nspace
      = .ok l → exOrders ∉ l)) :=
  ⟨by decide, by rfl, by rfl, List.nodup_nil,
    claim_C7 exStore exOrders exHandle ⟨⟨"s3://bucket/loc1"⟩⟩ [] (by decide) (by rfl)
      (by rfl) List.nodup_nil⟩

/-! ### C1: referential completeness under register/deregister sequences -/

/-- Invariant 1 of §3: every relation entry's parent namespace key holds a
namespace entry whose child set contains the relation's key. -/
def Inv (s : Store) : Prop :=
  ∀ k t, s k = some (.relation t) → ∃ c, s (keyParent k) = some (.nspace c) ∧ k ∈ c

/-- A mutation of the mirror: one `register_table` or `deregister_table`
call. -/
inductive MOp where
  | reg (i : Identifier) (t : TableProvider)
  | dereg (i : Identifier)

/-- The store after one mutation (ignoring the returned value and the
dispatched remote call). -/
def applyOp (s : Store) : MOp → Store
  | .reg i t => (register_table s i t).store
  | .dereg i => (deregister_table s i).store

/-- The store after a sequence of mutations. -/
def applyOps : Store → List MOp → Store
  | s, [] => s
  | s, op :: ops => applyOps (applyOp s op) ops

/-- The identifier has separator-free segments and a nonempty table name. -/
def wellFormed (i : Identifier) : Prop := i.dotFree ∧ i.name ≠ ""

/-- Side conditions under which a mutation preserves the invariant: a
register call needs a well-formed identifier whose parent key holds a
namespace entry and whose own key does not hold a namespace entry; a
deregister call must not target a key holding a namespace entry. -/
def opOK (s : Store) : MOp → Prop
  | .reg i _ => wellFormed i ∧ (∃ c, s i.parentKey = some (.nspace c)) ∧
      (∀ c, s i.render ≠ some (.nspace c))
  | .dereg i => ∀ c, s i.render ≠ some (.nspace c)

/-- Every mutation in the sequence satisfies its side condition in the state
it executes in. -/
inductive OpsOK : Store → List MOp → Prop
  | nil (s : Store) : OpsOK s []
  | cons {s : Store} {op : MOp} {ops : List MOp} :
      opOK s op → OpsOK (applyOp s op) ops → OpsOK s (op :: ops)

theorem register_preserves_inv (s : Store) (i : Identifier) (t : TableProvider)
    (hInv : Inv s) (hwf : wellFormed i)
    (hns : ∃ c, s i.parentKey = some (.nspace c))
    (hself : ∀ c, s i.render ≠ some (.nspace c)) :
    Inv (register_table s i t).store := by
  obtain ⟨c, hc⟩ := hns
  have hkpk : i.render ≠ i.parentKey := i.render_ne_parentKey hwf.2
  rw [register_table_store_nspace s i t c hwf.2 hc]
  intro k tk hk
  by_cases hk1 : k = i.parentKey
  · subst hk1
    unfold storeInsert at hk
    rw [if_pos rfl] at hk
    exact absurd hk (by simp)
  · by_cases hk2 : k = i.render
    · subst hk2
      rw [i.keyParent_render hwf.1]
      refine ⟨hsInsert i.render c, ?_, hsInsert_self_mem _ _⟩
      unfold storeInsert
      rw [if_pos rfl]
    · have hsk : s k = some (.relation tk) := by
        unfold storeInsert at hk
        rw [if_neg hk1, if_neg hk2] at hk
        exact hk
      obtain ⟨c', hc', hmem⟩ := hInv k tk hsk
      by_cases hp1 : keyParent k = i.parentKey
      · have hcc : c' = c := by
          rw [hp1] at hc'
          have := hc.symm.trans hc'
          injection this with h
          injection h with h
          exact h.symm
        refine ⟨hsInsert i.render c, ?_, ?_⟩
        · rw [hp1]
          unfold storeInsert
          rw [if_pos rfl]
        · exact mem_hsInsert_of_mem (hcc ▸ hmem)
      · by_cases hp2 : keyParent k = i.render
        · rw [hp2] at hc'
          exact absurd hc' (hself c')
        · refine ⟨c', ?_, hmem⟩
          unfold storeInsert
          rw [if_neg hp1, if_neg hp2]
          exact hc'

theorem deregister_preserves_inv (s : Store) (i : Identifier)
    (hInv : Inv s) (hself : ∀ c, s i.render ≠ some (.nspace c)) :
    Inv (deregister_table s i).store := by
  rcases hk : s i.render with _ | node
  · simp only [deregister_table, hk]
    exact hInv
  · rcases node with cp | tr
    · exact absurd hk (hself cp)
    · have hremoved : ∀ k tk, storeRemove s i.render k = some (.relation tk) →
          ∃ c', s (keyParent k) = some (.nspace c') ∧ k ∈ c' ∧ k ≠ i.render := by
        intro k tk hk'
        unfold storeRemove at hk'
        by_cases hki : k = i.render
        · rw [if_pos hki] at hk'
          exact absurd hk' (by simp)
        · rw [if_neg hki] at hk'
          obtain ⟨c', hc', hmem⟩ := hInv k tk hk'
          exact ⟨c', hc', hmem, hki⟩
      have hparent_ne : ∀ k, s (keyParent k) ≠ some (.relation tr) ∨ True := fun _ => .inr trivial
      rcases hp : storeRemove s i.render i.parentKey with _ | nodep
      · simp only [deregister_table, hk, hp]
        intro k tk hk'
        obtain ⟨c', hc', hmem, hki⟩ := hremoved k tk hk'
        refine ⟨c', ?_, hmem⟩
        unfold storeRemove
        by_cases hpk : keyParent k = i.render
        · rw [hpk] at hc'
          rw [hk] at hc'
          exact absurd hc' (by simp)
        · rw [if_neg hpk]
          exact hc'
      · rcases nodep with cp | tp
        · have hpkne : ¬(i.parentKey = i.render) := by
            intro h
            unfold storeRemove at hp
            rw [if_pos h] at hp
            exact Option.noConfusion hp
          have hspk : s i.parentKey = some (.nspace cp) := by
            unfold storeRemove at hp
            rw [if_neg hpkne] at hp
            exact hp
          simp only [deregister_table, hk, hp]
          intro k tk hk'
          have hk'' : storeRemove s i.render k = some (.relation tk) := by
            unfold storeInsert at hk'
            by_cases hkp : k = i.parentKey
            · rw [if_pos hkp] at hk'
              exact absurd hk' (by simp)
            · rw [if_neg hkp] at hk'
              exact hk'
          have hkp : k ≠ i.parentKey := by
            intro h
            unfold storeInsert at hk'
            rw [if_pos h] at hk'
            exact absurd hk' (by simp)
          obtain ⟨c', hc', hmem, hki⟩ := hremoved k tk hk''
          by_cases hp1 : keyParent k = i.parentKey
          · have hcc : c' = cp := by
              rw [hp1] at hc'
              have := hspk.symm.trans hc'
              injection this with h
              injection h with h
              exact h.symm
            refine ⟨hsRemove i.render cp, ?_, ?_⟩
            · rw [hp1]
              unfold storeInsert
              rw [if_pos rfl]
            · exact (List.mem_erase_of_ne hki).mpr (hcc ▸ hmem)
          · by_cases hp2 : keyParent k = i.render
            · rw [hp2, hk] at hc'
              exact absurd hc' (by simp)
            · refine ⟨c', ?_, hmem⟩
              unfold storeInsert storeRemove
              rw [if_neg hp1, if_neg hp2]
              exact hc'
        · simp only [deregister_table, hk, hp]
          intro k tk hk'
          obtain ⟨c', hc', hmem, hki⟩ := hremoved k tk hk'
          refine ⟨c', ?_, hmem⟩
          unfold storeRemove
          by_cases hpk : keyParent k = i.render
          · rw [hpk, hk] at hc'
            exact absurd hc' (by simp)
          · rw [if_neg hpk]
            exact hc'

/-- C1 fails as stated: starting from a store with a namespace entry (and
satisfying the invariant), one `register_table` call whose parent namespace
is absent leaves a relation entry at `"missing.orders"` whose parent key
`"missing"` holds no namespace entry. -/
theorem claim_C1_counterexample :
    Inv exStore ∧ exStore "sales" = some (.nspace []) ∧
    applyOps exStore [.reg exMissingOrders exHandle] "missing.orders"
      = some (.relation exHandle) ∧
    applyOps exStore [.reg exMissingOrders exHandle] (keyParent "missing.orders")
      = none ∧
    ¬ Inv (applyOps exStore [.reg exMissingOrders exHandle]) := by
  refine ⟨?_, rfl, rfl, rfl, ?_⟩
  · intro k t h
    unfold exStore storeInsert storeEmpty at h
    by_cases hk : k = "sales"
    · rw [if_pos hk] at h
      exact absurd h (by simp)
    · rw [if_neg hk] at h
      exact absurd h (by simp)
  · intro hInv
    obtain ⟨c, hc, _⟩ := hInv "missing.orders" exHandle (by rfl)
    rw [show applyOps exStore [.reg exMissingOrders exHandle]
      (keyParent "missing.orders") = none from rfl] at hc
    exact Option.noConfusion hc

/-- C1 (amended): the referential-completeness invariant is preserved by any
sequence of register/deregister calls in which every register targets a
well-formed identifier whose parent key holds a namespace entry and whose own
key does not hold a namespace entry, and every deregister targets a key not
holding a namespace entry.  (As stated the claim is false: a register whose
parent namespace is absent, or a call whose key collides with a namespace
entry, still mutates the store and orphans relation entries.) -/
theorem claim_C1 (s : Store) (ops : List MOp) (hInv : Inv s)
    (hops : OpsOK s ops) : Inv (applyOps s ops) := by
  induction ops generalizing s with
  | nil => exact hInv
  | cons op ops ih =>
    cases hops with
    | cons hop hrest =>
      cases op with
      | reg i t =>
        exact ih _ (register_preserves_inv s i t hInv hop.1 hop.2.1 hop.2.2) hrest
      | dereg i =>
        exact ih _ (deregister_preserves_inv s i hInv hop) hrest

/-- The seeded `"sales"` store satisfies the invariant. -/
theorem inv_exStore : Inv exStore := by
  intro k t h
  unfold exStore storeInsert storeEmpty at h
  by_cases hk : k = "sales"
  · rw [if_pos hk] at h
    exact absurd h (by simp)
  · rw [if_neg hk] at h
    exact absurd h (by simp)

/-- The register-then-deregister sequence on the seeded store satisfies the
side conditions. -/
theorem opsOK_exStore :
    OpsOK exStore [.reg exOrders exHandle, .dereg exOrders] := by
  refine .cons ⟨⟨by decide, by decide⟩, ⟨[], rfl⟩, ?_⟩ (.cons ?_ (.nil _))
  · intro c h
    rw [show exStore exOrders.render = none from rfl] at h
    exact Option.noConfusion h
  · intro c h
    rw [show applyOp exStore (.reg exOrders exHandle) exOrders.render
      = some (.relation exHandle) from rfl] at h
    exact absurd h (by simp)

/-- Witness for C1: the invariant holds after registering and deregistering
`sales.orders` on the seeded store. -/
theorem claim_C1_witness :
    Inv exStore ∧ OpsOK exStore [.reg exOrders exHandle, .dereg exOrders] ∧
    Inv (applyOps exStore [.reg exOrders exHandle, .dereg exOrders]) :=
  ⟨inv_exStore, opsOK_exStore, claim_C1 _ _ inv_exStore opsOK_exStore⟩

/-! ### C8: snapshot-loader error propagation -/

/-- All remote calls made by the snapshot walk succeed. -/
def snapshotCallsOk (cat : Catalog) : Prop :=
  ∃ nss, cat.list_namespaces = .ok nss ∧
    ∀ ns ∈ nss, ∃ ts, cat.list_tables ns = .ok ts ∧
      ∀ id ∈ ts, ∃ t, cat.load_table id = .ok t

theorem load_tables_ok_iff (cat : Catalog) (ids : List Identifier) :
    ∀ s acc, (∃ r, load_tables cat ids s acc = .ok r) ↔
      ∀ id ∈ ids, ∃ t, cat.load_table id = .ok t := by
  induction ids with
  | nil =>
    intro s acc
    constructor
    · intro _ id hid
      exact absurd hid (List.not_mem_nil id)
    · intro _
      exact ⟨(s, acc), rfl⟩
  | cons id rest ih =>
    intro s acc
    constructor
    · rintro ⟨r, hr⟩ id' hid'
      unfold load_tables at hr
      rcases hl : cat.load_table id with e | t <;> rw [hl] at hr
      · exact absurd hr (by simp)
      · rcases List.mem_cons.mp hid' with h | h
        · exact ⟨t, h ▸ hl⟩
        · exact (ih _ _).mp ⟨r, hr⟩ id' h
    · intro hall
      obtain ⟨t, ht⟩ := hall id (List.mem_cons_self _ _)
      obtain ⟨r, hr⟩ := (ih (storeInsert s id.render (.relation (providerOfTable t)))
        (hsInsert id.render acc)).mpr
        (fun id' h => hall id' (List.mem_cons_of_mem _ h))
      refine ⟨r, ?_⟩
      unfold load_tables
      rw [ht]
      exact hr

theorem load_namespaces_ok_iff (cat : Catalog) (nss : List Namespace) :
    ∀ s, (∃ r, load_namespaces cat nss s = .ok r) ↔
      ∀ ns ∈ nss, ∃ ts, cat.list_tables ns = .ok ts ∧
        ∀ id ∈ ts, ∃ t, cat.load_table id = .ok t := by
  induction nss with
  | nil =>
    intro s
    constructor
    · intro _ ns hns
      exact absurd hns (List.not_mem_nil ns)
    · intro _
      exact ⟨s, rfl⟩
  | cons ns rest ih =>
    intro s
    constructor
    · rintro ⟨r, hr⟩ ns' hns'
      unfold load_namespaces at hr
      split at hr
      · exact absurd hr (by simp)
      · rename_i ts hl
        split at hr
        · exact absurd hr (by simp)
        · rename_i s' children hlt
          rcases List.mem_cons.mp hns' with h | h
          · subst h
            exact ⟨ts, hl, (load_tables_ok_iff cat ts s []).mp ⟨(s', children), hlt⟩⟩
          · exact (ih _).mp ⟨r, hr⟩ ns' h
    · intro hall
      obtain ⟨ts, hts, htabs⟩ := hall ns (List.mem_cons_self _ _)
      obtain ⟨⟨s', children⟩, hlt⟩ := (load_tables_ok_iff cat ts s []).mpr htabs
      obtain ⟨r, hr⟩ := (ih (storeInsert s' ns.render (.nspace children))).mpr
        (fun ns' h => hall ns' (List.mem_cons_of_mem _ h))
      refine ⟨r, ?_⟩
      unfold load_namespaces
      simp only [hts]
      simp only [hlt]
      exact hr

/-- C8: `Mirror::new` returns a mirror iff every remote call of the snapshot
walk (list_namespaces, list_tables per namespace, load_table per table)
succeeds; equivalently it returns an error iff some remote call fails, so no
partially populated mirror is ever returned. -/
theorem claim_C8 (cat : Catalog) :
    ((∃ s, mirror_new cat = .ok s) ↔ snapshotCallsOk cat) ∧
    ((∃ e, mirror_new cat = .error e) ↔ ¬ snapshotCallsOk cat) := by
  have h1 : (∃ s, mirror_new cat = .ok s) ↔ snapshotCallsOk cat := by
    constructor
    · rintro ⟨s, hs⟩
      unfold mirror_new at hs
      split at hs
      · exact absurd hs (by simp)
      · rename_i nss hln
        split at hs
        · exact absurd hs (by simp)
        · rename_i r hlns
          exact ⟨nss, hln, (load_namespaces_ok_iff cat nss storeEmpty).mp ⟨r, hlns⟩⟩
    · rintro ⟨nss, hln, hall⟩
      obtain ⟨r, hr⟩ := (load_namespaces_ok_iff cat nss storeEmpty).mpr hall
      refine ⟨r, ?_⟩
      unfold mirror_new
      simp only [hln]
      simp only [hr]
  refine ⟨h1, ?_⟩
  rcases hm : mirror_new cat with e | s
  · constructor
    · intro _ hsnap
      obtain ⟨s, hs⟩ := h1.mpr hsnap
      rw [hm] at hs
      exact Except.noConfusion hs
    · intro _
      exact ⟨e, rfl⟩
  · constructor
    · rintro ⟨e, he⟩
      exact Except.noConfusion he
    · intro hn
      exact absurd (h1.mp ⟨s, hm⟩) hn

end Mirror
